import Mathlib

/-!
# Verification of the SSDP discovery core (`src/discovery.js`)

Shallow embedding of the discovery-message parser, classifier, store and
service of `discovery.js`, together with theorems settling the spec's
claims about them.

Modelling conventions:
* JavaScript strings are Lean `String`s; character-level operations are
  performed on `String.data` (a `List Char`).
* JavaScript's `undefined` for a header value is `Option.none`.
* Times are milliseconds since the epoch as `Int`; `Date.now()` becomes an
  explicit `now : Int` argument.  `NaN`-valued times (an invalid `Date`,
  a failed `parseInt`) are `Option.none`, and a `<` comparison involving
  `none` is `false`, exactly as a JS comparison involving `NaN`.
* JavaScript date-string parsing (`new Date(string)`) is
  implementation-defined, so it enters as an explicit parameter
  `dparse : String → Option Int` (`none` = invalid date); theorems hold for
  every such parser, and concrete witnesses instantiate it.
* An operation that can throw a `TypeError` returns `Option` (`none` =
  the JS exception propagates to the caller).
* The JS whitespace class `\s` and `String.prototype.trim`/`toUpperCase`
  are modelled with `Char.isWhitespace`/`String.toUpper`; they agree on
  the ASCII data the protocol uses.
-/

namespace NodeUpnp

/-- `class DiscoveryMessageHeader` (discovery.js:22): a name/value pair.
`value` is `none` when the header line had no colon (JS `undefined`). -/
structure DiscoveryMessageHeader where
  header : String
  value : Option String
deriving Repr, DecidableEq

/-- `class DiscoveryMessage` (discovery.js:43): origin address, receipt
timestamp (ms), whitespace-split status line, ordered headers. -/
structure DiscoveryMessage where
  remoteAddress : String
  timestamp : Int
  statusLine : List String
  headers : List DiscoveryMessageHeader
deriving Repr, DecidableEq

/-! ## String helpers mirroring the JS string primitives -/

/-- First index of character `c` in `l`, JS `String.prototype.indexOf`
restricted to a single character (`none` = `-1`). -/
def idxOfChar : List Char → Char → Option Nat
  | [], _ => none
  | a :: as, c => if a = c then some 0 else (idxOfChar as c).map (· + 1)

/-- First index at which `pat` occurs as a contiguous substring of `l`,
JS `String.prototype.indexOf` for a string pattern (`none` = `-1`). -/
def idxOfSub (pat : List Char) : List Char → Option Nat
  | [] => if pat = [] then some 0 else none
  | c :: cs =>
    if pat.isPrefixOf (c :: cs) then some 0
    else (idxOfSub pat cs).map (· + 1)

/-- Numeric value of a list of decimal digits. -/
def digitsVal (ds : List Char) : Nat :=
  ds.foldl (fun acc c => acc * 10 + (c.toNat - '0'.toNat)) 0

/-- JS `parseInt(s, 10)`: skip leading whitespace, optional sign, then a
maximal run of decimal digits; `none` (= `NaN`) when no digit follows. -/
def jsParseInt (s : String) : Option Int :=
  let t := s.data.dropWhile Char.isWhitespace
  let sign : Int := match t with
    | '-' :: _ => -1
    | _ => 1
  let t2 := match t with
    | '-' :: r => r
    | '+' :: r => r
    | _ => t
  let ds := t2.takeWhile Char.isDigit
  if ds.isEmpty then none else some (sign * (digitsVal ds : Int))

/-- Split on maximal runs of whitespace, JS `line.split(/\s+/)`:
a leading or trailing run produces an empty token, and the result is
never empty (`""` splits to `[""]`).  `acc` holds the reversed pending
token; `inRun` records whether the previous character was part of a
whitespace run (so further run characters are absorbed). -/
def wsSplitAux : List Char → List Char → Bool → List String
  | [], acc, _ => [String.mk acc.reverse]
  | c :: cs, acc, inRun =>
    if c.isWhitespace then
      if inRun then wsSplitAux cs acc true
      else String.mk acc.reverse :: wsSplitAux cs [] true
    else
      wsSplitAux cs (c :: acc) false

def wsSplit (s : String) : List String :=
  wsSplitAux s.data [] false

/-- JS `msg.split('\r\n')`: split on each (leftmost, non-overlapping)
occurrence of the two-character CRLF separator. -/
def splitOnCRLF : List Char → List (List Char)
  | [] => [[]]
  | '\r' :: '\n' :: rest => [] :: splitOnCRLF rest
  | c :: rest =>
    match splitOnCRLF rest with
    | [] => [[c]]
    | l :: ls => (c :: l) :: ls

/-- JS `String.prototype.trim`: strip whitespace from both ends. -/
def jsTrim (l : List Char) : List Char :=
  ((l.dropWhile Char.isWhitespace).reverse.dropWhile Char.isWhitespace).reverse

/-- JS `a.toUpperCase() === b.toUpperCase()`, as used for the
case-insensitive header-name comparisons. -/
def upperEq (a b : String) : Bool :=
  a.data.map Char.toUpper == b.data.map Char.toUpper

/-! ## Parser (`DiscoveryMessage.parseString`, discovery.js:236-273) -/

/-- `DiscoveryMessage._parseHeaderLine` (discovery.js:255): split the line
at the first colon; the value is the remainder, trimmed.  A colon-less
line becomes a header with the whole line as name and no value. -/
def parseHeaderLine (line : String) : DiscoveryMessageHeader :=
  match idxOfChar line.data ':' with
  | some idx =>
    ⟨String.mk (line.data.take idx),
     some (String.mk (jsTrim (line.data.drop (idx + 1))))⟩
  | none => ⟨line, none⟩

/-- `DiscoveryMessage._parseStatusLine` (discovery.js:271). -/
def parseStatusLine (line : String) : List String :=
  wsSplit line

/-- `DiscoveryMessage.parseString` (discovery.js:236).  The source splits
the message on `'\r\n'` and, when that yields a single line, re-splits with
the *same* separator (discovery.js:238-239) — a dead branch with no effect,
so a single split is an exact embedding. -/
def parseString (remoteAddress : String) (timestamp : Int) (msg : String) :
    DiscoveryMessage :=
  let lines := (splitOnCRLF msg.data).map String.mk
  let statusLine := parseStatusLine (lines.headD "")
  let headers := (lines.drop 1).filter (fun line => line.length > 0)
    |>.map parseHeaderLine
  ⟨remoteAddress, timestamp, statusLine, headers⟩

/-! ## Classifier (derived facts on a message) -/

/-- `_getFirstHeaderNamed` (discovery.js:207): first header whose
upper-cased name matches the upper-cased query. -/
def getFirstHeaderNamed (m : DiscoveryMessage) (name : String) :
    Option DiscoveryMessageHeader :=
  m.headers.find? (fun h => upperEq h.header name)

/-- `_getHeadersNamed` (discovery.js:220). -/
def getHeadersNamed (m : DiscoveryMessage) (name : String) :
    List DiscoveryMessageHeader :=
  m.headers.filter (fun h => upperEq h.header name)

def USN0 (m : DiscoveryMessage) : Option DiscoveryMessageHeader :=
  getFirstHeaderNamed m "USN"

def LOCATION0 (m : DiscoveryMessage) : Option DiscoveryMessageHeader :=
  getFirstHeaderNamed m "LOCATION"

def NTS0 (m : DiscoveryMessage) : Option DiscoveryMessageHeader :=
  getFirstHeaderNamed m "NTS"

def locationHeaders (m : DiscoveryMessage) : List DiscoveryMessageHeader :=
  getHeadersNamed m "LOCATION"

def stHeaders (m : DiscoveryMessage) : List DiscoveryMessageHeader :=
  getHeadersNamed m "ST"

/-- `get isNotify` (discovery.js:75): `statusLine[0] === 'NOTIFY'`
(an empty status line gives `undefined`, which is not the string). -/
def isNotify (m : DiscoveryMessage) : Bool :=
  m.statusLine.head? == some "NOTIFY"

/-- `get isSearchResponse` (discovery.js:79). -/
def isSearchResponse (m : DiscoveryMessage) : Bool :=
  m.statusLine.head? == some "HTTP/1.1"

/-- `get isExpired` (discovery.js:86-108).
Returns `none` when the JS getter throws: that happens exactly when the
first `CACHE-CONTROL` header exists but its value is `undefined`
(`cacheControl.value.indexOf` on `undefined`).  All `NaN` paths —
`parseInt` failing, `new Date(undefined)`, an unparseable `DATE` — make
the final `<` comparison false, hence `some false`. -/
def isExpired (dparse : String → Option Int) (now : Int)
    (m : DiscoveryMessage) : Option Bool :=
  match getFirstHeaderNamed m "CACHE-CONTROL" with
  | none => some false
  | some cacheControl =>
    match cacheControl.value with
    | none => none
    | some v =>
      match idxOfSub "max-age=".data v.data with
      | none => some false
      | some idx =>
        let maxAge : Option Int :=
          jsParseInt (String.mk (v.data.drop (idx + "max-age=".length)))
        let messageDate : Option Int :=
          match getFirstHeaderNamed m "DATE" with
          | none => some m.timestamp
          | some date =>
            match date.value with
            | none => none
            | some dv => dparse dv
        some (match messageDate, maxAge with
          | some md, some ma => decide (md + ma * 1000 < now)
          | _, _ => false)

/-! ## Store (`DiscoveryMessageStore`, discovery.js:290-367)

The store's `_messages` array is a `List DiscoveryMessage`.  Operations
that can throw a `TypeError` return `Option` (`none` = exception; the JS
array is unchanged in that case because the throw happens before any
mutation). -/

/-- The value of a message's first USN header, as the JS expression
`m.USN0.value` reads it when `m.USN0` exists.  (Stored entries always
have a USN header; the `Option.bind` collapse is only exercised there.) -/
def usnVal (m : DiscoveryMessage) : Option String :=
  (USN0 m).bind (fun h => h.value)

/-- The `findIndex` callback of `update` (discovery.js:333-335):
`message.USN0.value === usn0.value`.  Outer `none` models the
`TypeError` thrown when a scanned entry has no USN header; `some none`
is `existingIndex === -1`; `some (some i)` is the first matching index. -/
def findIndexByUsn (target : Option String) :
    List DiscoveryMessage → Option (Option Nat)
  | [] => some none
  | m :: ms =>
    match USN0 m with
    | none => none
    | some h =>
      if h.value = target then some (some 0)
      else (findIndexByUsn target ms).map (Option.map (· + 1))

/-- The admissibility guard of `update` (discovery.js:329):
`usn0 && location0 && (discoveryMessage.isSearchResponse || nts0)`. -/
def admissible (m : DiscoveryMessage) : Bool :=
  (USN0 m).isSome && (LOCATION0 m).isSome &&
    (isSearchResponse m || (NTS0 m).isSome)

/-- Models the JS access `discoveryMessage.isSearchRespone`
(discovery.js:337).  The property name is misspelled — the class defines
`isSearchResponse` — so the access yields `undefined`, which is falsy. -/
def isSearchResponeTypo (_ : DiscoveryMessage) : Bool :=
  false

/-- Models the JS strict comparison `nts0 !== 'ssdp:byebye'`
(discovery.js:337 and 343).  `nts0` holds `discoveryMessage.NTS0`, which
is a `DiscoveryMessageHeader` *object* or `undefined` — never a string —
and strict equality between an object (or `undefined`) and a string
value is always false, so the inequality holds for every message. -/
def ntsNeqByebyeStr (nts0 : Option DiscoveryMessageHeader) : Bool :=
  match nts0 with
  | none => true
  | some _ => true

/-- `DiscoveryMessageStore.update` (discovery.js:324-349), embedded with
the source's behaviour (including the consequences of the misspelled
`isSearchRespone` and of comparing the NTS header object to a string).
`none` models the `TypeError` escaping from `findIndex`. -/
def update (m : DiscoveryMessage) (st : List DiscoveryMessage) :
    Option (List DiscoveryMessage) :=
  if ¬ admissible m then
    some st
  else
    match findIndexByUsn (usnVal m) st with
    | none => none
    | some none =>
      if isSearchResponeTypo m || ntsNeqByebyeStr (NTS0 m) then
        some (st ++ [m])
      else
        some st
    | some (some i) =>
      if isSearchResponse m || ntsNeqByebyeStr (NTS0 m) then
        some (st.set i m)
      else
        some (st.eraseIdx i)

/-- `get messages` (discovery.js:306-310): filter out the expired
entries, assign the result back to `_messages`, and return it.  `none`
models the exception from an `isExpired` evaluation that throws: the
`filter` callback raises, the assignment does not happen, and the store
is unchanged.  The returned list is also the new store contents. -/
def storeMessages (dparse : String → Option Int) (now : Int) :
    List DiscoveryMessage → Option (List DiscoveryMessage)
  | [] => some []
  | m :: ms =>
    match isExpired dparse now m with
    | none => none
    | some true => storeMessages dparse now ms
    | some false => (storeMessages dparse now ms).map (m :: ·)

/-- `DiscoveryMessageStore.findByST` (discovery.js:360-366): read
`messages` (evicting expired entries), then keep those with an `ST`
header whose value strictly equals the query string.  Returns the
filtered list together with the evicted store contents. -/
def findByST (dparse : String → Option Int) (now : Int) (query : String)
    (st : List DiscoveryMessage) :
    Option (List DiscoveryMessage × List DiscoveryMessage) :=
  (storeMessages dparse now st).map (fun ms =>
    (ms.filter (fun m => (stHeaders m).any (fun h => h.value == some query)), ms))

/-! ## Service (`DiscoveryService`, discovery.js:377-490) -/

/-- `class DiscoveryService` state: the UDP socket (`none` = the initial
`null`; `some id` = a created socket) and the owned message store. -/
structure DiscoveryService where
  socket : Option Nat
  messageStore : List DiscoveryMessage
deriving Repr, DecidableEq

/-- `new DiscoveryService(...)` (discovery.js:384-388). -/
def newDiscoveryService : DiscoveryService :=
  ⟨none, []⟩

/-- The search request text composed by `startSearch`
(discovery.js:429-435); `platform` and `release` stand for the host's
`os.platform()` and `os.release()`. -/
def searchRequest (platform release target : String) : String :=
  "M-SEARCH * HTTP/1.1\r\n" ++
  "HOST: 239.255.255.250:1900\r\n" ++
  "MAN: \"ssdp:discover\"\r\n" ++
  "MX: 2\r\n" ++
  "ST: " ++ target ++ "\r\n" ++
  "USER-AGENT: " ++ platform ++ "/" ++ release ++ " UPnP/1.1 node-upnp/1.0\r\n" ++
  "\r\n"

/-- `DiscoveryService.startSearch` (discovery.js:424-441).  Result:
(service state after the call, datagrams sent, thrown error if any).
The not-started check throws *before* `clear()` runs, so on that path
the store is untouched and nothing is sent. -/
def startSearch (platform release : String) (svc : DiscoveryService)
    (target : String) : DiscoveryService × List String × Option String :=
  match svc.socket with
  | none => (svc, [], some "Server not started")
  | some _ =>
    ({ svc with messageStore := [] },
     [searchRequest platform release target], none)

/-- `DiscoveryService.startService` (discovery.js:448-489): throws when
the socket already exists, otherwise creates the socket (the subsequent
asynchronous bind/listen is outside the synchronous state change
modelled here).  Result: (service state, thrown error if any). -/
def startService (sid : Nat) (svc : DiscoveryService) :
    DiscoveryService × Option String :=
  match svc.socket with
  | some _ => (svc, some "Server already started")
  | none => ({ svc with socket := some sid }, none)

/-- `DiscoveryService.getLocations` (discovery.js:408-416): a JS `Set`
is an insertion-ordered collection without duplicates, modelled as a
list extended only with values not already present. -/
def setAddJs (l : List (Option String)) (v : Option String) :
    List (Option String) :=
  if v ∈ l then l else l ++ [v]

/-- The body of the outer `forEach` in `getLocations`: add the value of
every LOCATION header of `m` to the set. -/
def addLocationsOf (acc : List (Option String)) (m : DiscoveryMessage) :
    List (Option String) :=
  (locationHeaders m).foldl (fun a h => setAddJs a h.value) acc

/-- `DiscoveryService.getLocations` (discovery.js:408-416): reads
`messageStore.messages` (evicting expired entries) and accumulates all
LOCATION header values into a set.  Returns the set and the service
with the evicted store; `none` when the `messages` read throws. -/
def getLocations (dparse : String → Option Int) (now : Int)
    (svc : DiscoveryService) :
    Option (List (Option String) × DiscoveryService) :=
  (storeMessages dparse now svc.messageStore).map (fun ms =>
    (ms.foldl addLocationsOf [], { svc with messageStore := ms }))

/-! ## Reachable store states

The store states produced by any sequence of `update`, `messages` (the
evicting read, also performed by `findByST` and `getLocations`) and
`clear`, starting from the empty store of the constructor.  A call whose
embedded result is `none` (a thrown `TypeError`) leaves the JS array
unchanged — the throw precedes every mutation — so it does not add a
transition. -/
inductive Reachable : List DiscoveryMessage → Prop where
  | empty : Reachable []
  | step_update (m : DiscoveryMessage) {st st' : List DiscoveryMessage} :
      Reachable st → update m st = some st' → Reachable st'
  | step_messages (dparse : String → Option Int) (now : Int)
      {st st' : List DiscoveryMessage} :
      Reachable st → storeMessages dparse now st = some st' → Reachable st'
  | step_clear {st : List DiscoveryMessage} :
      Reachable st → Reachable []

/-! ## Spec-side definitions and concrete inputs -/

/-- The header-line rule as the spec words it (for comparison with the
source's `parseHeaderLine`): a non-blank line is split on the *first*
colon, the name is everything left of it, the value everything right of
it with surrounding whitespace trimmed; a colon-less line becomes a
header with that line as name and an absent value. -/
def parseHeaderLineSpec (line : String) : DiscoveryMessageHeader :=
  if line.data.contains ':' then
    ⟨String.mk (line.data.takeWhile (fun a => !(a == ':'))),
     some (String.mk (jsTrim ((line.data.dropWhile (fun a => !(a == ':'))).tail)))⟩
  else
    ⟨line, none⟩

/-- All store entries carry a first USN header. -/
def AllUsn (st : List DiscoveryMessage) : Prop :=
  ∀ x ∈ st, (USN0 x).isSome

/-- No two store entries share the value of their first USN header. -/
def NodupKeys (st : List DiscoveryMessage) : Prop :=
  (st.map usnVal).Nodup

/-- A date parser that accepts nothing; a valid instantiation of the
implementation-defined `new Date(string)` for developments whose date
strings (such as `"not-a-date"`) no JS engine parses. -/
def nullDateParse : String → Option Int :=
  fun _ => none

/-- An `ssdp:alive` root-device announcement (receipt time 0 ms). -/
def msgAlive : DiscoveryMessage :=
  parseString "192.168.1.10" 0
    ("NOTIFY * HTTP/1.1\r\nHOST: 239.255.255.250:1900\r\nNT: upnp:rootdevice\r\n" ++
     "NTS: ssdp:alive\r\nUSN: uuid:device-1::upnp:rootdevice\r\n" ++
     "LOCATION: http://192.168.1.20/desc.xml\r\n")

/-- A refresh of `msgAlive`: same USN, later receipt time, not a byebye. -/
def msgAliveLater : DiscoveryMessage :=
  parseString "192.168.1.10" 7000
    ("NOTIFY * HTTP/1.1\r\nNT: upnp:rootdevice\r\nNTS: ssdp:alive\r\n" ++
     "USN: uuid:device-1::upnp:rootdevice\r\nLOCATION: http://192.168.1.20/desc.xml\r\n")

/-- An `ssdp:byebye` withdrawal for the USN of `msgAlive`. -/
def msgByebye : DiscoveryMessage :=
  parseString "192.168.1.10" 5000
    ("NOTIFY * HTTP/1.1\r\nNT: upnp:rootdevice\r\nNTS: ssdp:byebye\r\n" ++
     "USN: uuid:device-1::upnp:rootdevice\r\nLOCATION: http://192.168.1.20/desc.xml\r\n")

/-- An announcement with a different USN but the same LOCATION value as
`msgAlive`. -/
def msgOtherUsn : DiscoveryMessage :=
  parseString "192.168.1.10" 0
    ("NOTIFY * HTTP/1.1\r\nNT: urn:schemas-upnp-org:service:ContentDirectory:1\r\n" ++
     "NTS: ssdp:alive\r\nUSN: uuid:device-2::urn:y\r\n" ++
     "LOCATION: http://192.168.1.20/desc.xml\r\n")

/-- An announcement received at time 0 with `CACHE-CONTROL: max-age=1`,
hence expired at any `now` past 1000 ms. -/
def msgExpired : DiscoveryMessage :=
  parseString "192.168.1.10" 0
    ("NOTIFY * HTTP/1.1\r\nNTS: ssdp:alive\r\nUSN: uuid:device-3::urn:z\r\n" ++
     "LOCATION: http://192.168.1.20/desc.xml\r\nCACHE-CONTROL: max-age=1\r\n")

/-- An announcement received at time 0 with `CACHE-CONTROL: max-age=1`
and a DATE header whose value no date parser accepts. -/
def msgStaleUnparseableDate : DiscoveryMessage :=
  parseString "192.168.1.10" 0
    ("NOTIFY * HTTP/1.1\r\nNTS: ssdp:alive\r\nUSN: uuid:device-4::urn:w\r\n" ++
     "LOCATION: http://192.168.1.20/desc.xml\r\nCACHE-CONTROL: max-age=1\r\n" ++
     "DATE: not-a-date\r\n")

/-- A message whose CACHE-CONTROL header line has no colon, so the
header is present with an absent value. -/
def msgColonlessCC : DiscoveryMessage :=
  parseString "192.168.1.10" 0
    "NOTIFY * HTTP/1.1\r\nCACHE-CONTROL\r\nUSN: uuid:device-5\r\nLOCATION: l\r\nNTS: ssdp:alive\r\n"

/-- An announcement lacking a USN header (inadmissible). -/
def msgNoUsn : DiscoveryMessage :=
  parseString "192.168.1.10" 0
    "NOTIFY * HTTP/1.1\r\nNT: upnp:rootdevice\r\nNTS: ssdp:alive\r\nLOCATION: http://192.168.1.20/desc.xml\r\n"

/-! ## Helper lemmas -/

/-- The JS comparison `nts0 !== 'ssdp:byebye'` holds for every message:
`nts0` is never a string. -/
theorem ntsNeqByebyeStr_true (o : Option DiscoveryMessageHeader) :
    ntsNeqByebyeStr o = true := by
  cases o <;> rfl

theorem usnVal_of_USN0 {m : DiscoveryMessage} {hd : DiscoveryMessageHeader}
    (h : USN0 m = some hd) : usnVal m = hd.value := by
  simp [usnVal, h]

theorem findIndexByUsn_not_found {t : Option String} {st : List DiscoveryMessage}
    (h : findIndexByUsn t st = some none) :
    ∀ x ∈ st, (USN0 x).isSome ∧ usnVal x ≠ t := by
  induction st with
  | nil => intro x hx; cases hx
  | cons m ms ih =>
    simp only [findIndexByUsn] at h
    cases husn : USN0 m with
    | none => simp only [husn] at h; cases h
    | some hd =>
      simp only [husn] at h
      by_cases heq : hd.value = t
      · rw [if_pos heq] at h
        simp at h
      · rw [if_neg heq] at h
        have h' : findIndexByUsn t ms = some none := by
          cases hms : findIndexByUsn t ms with
          | none => rw [hms] at h; simp at h
          | some o =>
            cases o with
            | none => rfl
            | some j => rw [hms] at h; simp at h
        intro x hx
        rcases List.mem_cons.mp hx with rfl | hx
        · exact ⟨by simp [husn], by rw [usnVal_of_USN0 husn]; exact heq⟩
        · exact ih h' x hx

theorem findIndexByUsn_found {t : Option String} {st : List DiscoveryMessage}
    {i : Nat} (h : findIndexByUsn t st = some (some i)) :
    ∃ x, st[i]? = some x ∧ (USN0 x).isSome ∧ usnVal x = t := by
  induction st generalizing i with
  | nil => simp [findIndexByUsn] at h
  | cons m ms ih =>
    simp only [findIndexByUsn] at h
    cases husn : USN0 m with
    | none => simp only [husn] at h; cases h
    | some hd =>
      simp only [husn] at h
      by_cases heq : hd.value = t
      · rw [if_pos heq] at h
        have hi : i = 0 := by
          have := (Option.some.injEq _ _).mp h
          exact ((Option.some.injEq _ _).mp this).symm
        subst hi
        exact ⟨m, by simp, by simp [husn], by rw [usnVal_of_USN0 husn]; exact heq⟩
      · rw [if_neg heq] at h
        obtain ⟨j, hj, rfl⟩ : ∃ j, findIndexByUsn t ms = some (some j) ∧ i = j + 1 := by
          cases hms : findIndexByUsn t ms with
          | none => rw [hms] at h; simp at h
          | some o =>
            cases o with
            | none => rw [hms] at h; simp at h
            | some j =>
              rw [hms] at h
              simp at h
              exact ⟨j, rfl, by omega⟩
        obtain ⟨x, hx, hx2, hx3⟩ := ih hj
        exact ⟨x, by simpa using hx, hx2, hx3⟩

theorem findIndexByUsn_isSome {t : Option String} {st : List DiscoveryMessage}
    (h : AllUsn st) : (findIndexByUsn t st).isSome := by
  induction st with
  | nil => simp [findIndexByUsn]
  | cons m ms ih =>
    have hm : (USN0 m).isSome := h m (by simp)
    obtain ⟨hd, hhd⟩ := Option.isSome_iff_exists.mp hm
    simp only [findIndexByUsn, hhd]
    by_cases heq : hd.value = t
    · simp [heq]
    · rw [if_neg heq]
      have := ih (fun x hx => h x (by simp [hx]))
      cases hms : findIndexByUsn t ms with
      | none => rw [hms] at this; cases this
      | some o => simp

theorem allUsn_append_single {st : List DiscoveryMessage} {m : DiscoveryMessage}
    (h : AllUsn st) (hm : (USN0 m).isSome) : AllUsn (st ++ [m]) := by
  intro x hx
  rcases List.mem_append.mp hx with hx | hx
  · exact h x hx
  · simp only [List.mem_singleton] at hx
    subst hx; exact hm

theorem allUsn_set {st : List DiscoveryMessage} {i : Nat} {m : DiscoveryMessage}
    (h : AllUsn st) (hm : (USN0 m).isSome) : AllUsn (st.set i m) := by
  intro x hx
  rcases List.mem_or_eq_of_mem_set hx with hx | rfl
  · exact h x hx
  · exact hm

theorem nodupKeys_append_single {st : List DiscoveryMessage}
    {m : DiscoveryMessage} (h : NodupKeys st)
    (hnot : usnVal m ∉ st.map usnVal) : NodupKeys (st ++ [m]) := by
  unfold NodupKeys at h ⊢
  rw [List.map_append, List.nodup_append]
  refine ⟨h, by simp, ?_⟩
  intro v hv
  simp only [List.map_cons, List.map_nil, List.mem_singleton]
  intro hveq
  subst hveq
  exact hnot hv

theorem nodupKeys_set {st : List DiscoveryMessage} {i : Nat}
    {old m : DiscoveryMessage} (hold : st[i]? = some old)
    (hk : usnVal old = usnVal m) (h : NodupKeys st) :
    NodupKeys (st.set i m) := by
  induction st generalizing i with
  | nil => simp at hold
  | cons a as ih =>
    unfold NodupKeys at h
    simp only [List.map_cons, List.nodup_cons] at h
    cases i with
    | zero =>
      obtain rfl : a = old := by simpa using hold
      unfold NodupKeys
      simp only [List.set_cons_zero, List.map_cons, List.nodup_cons]
      exact ⟨by rw [← hk]; exact h.1, h.2⟩
    | succ i =>
      have hold' : as[i]? = some old := by simpa using hold
      have hmem : old ∈ as := List.getElem?_mem hold'
      unfold NodupKeys
      simp only [List.set_cons_succ, List.map_cons, List.nodup_cons]
      constructor
      · intro hin
        rcases List.mem_map.mp hin with ⟨y, hy, hyv⟩
        rcases List.mem_or_eq_of_mem_set hy with hy | rfl
        · exact h.1 (List.mem_map.mpr ⟨y, hy, hyv⟩)
        · rw [← hk] at hyv
          exact h.1 (List.mem_map.mpr ⟨old, hmem, hyv⟩)
      · exact ih hold' h.2

theorem storeMessages_sublist {dparse : String → Option Int} {now : Int}
    {st res : List DiscoveryMessage}
    (h : storeMessages dparse now st = some res) : res.Sublist st := by
  induction st generalizing res with
  | nil =>
    simp only [storeMessages] at h
    obtain rfl : ([] : List DiscoveryMessage) = res := Option.some.inj h
    exact List.Sublist.refl _
  | cons m ms ih =>
    simp only [storeMessages] at h
    cases hexp : isExpired dparse now m with
    | none => rw [hexp] at h; cases h
    | some b =>
      rw [hexp] at h
      cases b with
      | true => exact (ih h).cons m
      | false =>
        cases hms : storeMessages dparse now ms with
        | none => rw [hms] at h; cases h
        | some res' =>
          rw [hms] at h
          simp only [Option.map_some'] at h
          obtain rfl : m :: res' = res := Option.some.inj h
          exact (ih hms).cons₂ m

theorem storeMessages_not_expired {dparse : String → Option Int} {now : Int}
    {st res : List DiscoveryMessage}
    (h : storeMessages dparse now st = some res) :
    ∀ m ∈ res, isExpired dparse now m = some false := by
  induction st generalizing res with
  | nil =>
    simp only [storeMessages] at h
    obtain rfl : ([] : List DiscoveryMessage) = res := Option.some.inj h
    intro m hm; cases hm
  | cons m ms ih =>
    simp only [storeMessages] at h
    cases hexp : isExpired dparse now m with
    | none => rw [hexp] at h; cases h
    | some b =>
      rw [hexp] at h
      cases b with
      | true => exact ih h
      | false =>
        cases hms : storeMessages dparse now ms with
        | none => rw [hms] at h; cases h
        | some res' =>
          rw [hms] at h
          simp only [Option.map_some'] at h
          obtain rfl : m :: res' = res := Option.some.inj h
          intro x hx
          rcases List.mem_cons.mp hx with rfl | hx
          · exact hexp
          · exact ih hms x hx

/-- `update` preserves the well-formedness of the store: all entries keep
a first USN header and no two entries share its value. -/
theorem update_wf {m : DiscoveryMessage} {st st' : List DiscoveryMessage}
    (hwf : AllUsn st ∧ NodupKeys st) (h : update m st = some st') :
    AllUsn st' ∧ NodupKeys st' := by
  by_cases hadm : admissible m = true
  · have husn : (USN0 m).isSome := by
      simp only [admissible, Bool.and_eq_true] at hadm
      exact hadm.1.1
    rw [update, if_neg (by simp [hadm])] at h
    cases hidx : findIndexByUsn (usnVal m) st with
    | none => rw [hidx] at h; cases h
    | some o =>
      rw [hidx] at h
      cases o with
      | none =>
        simp only [isSearchResponeTypo, ntsNeqByebyeStr_true, Bool.false_or,
          if_pos] at h
        obtain rfl : st ++ [m] = st' := Option.some.inj h
        have hnot : usnVal m ∉ st.map usnVal := by
          intro hin
          rcases List.mem_map.mp hin with ⟨y, hy, hyv⟩
          exact (findIndexByUsn_not_found hidx y hy).2 hyv
        exact ⟨allUsn_append_single hwf.1 husn, nodupKeys_append_single hwf.2 hnot⟩
      | some i =>
        simp only [ntsNeqByebyeStr_true, Bool.or_true, if_pos] at h
        obtain rfl : st.set i m = st' := Option.some.inj h
        obtain ⟨x, hx, _, hxv⟩ := findIndexByUsn_found hidx
        exact ⟨allUsn_set hwf.1 husn,
          nodupKeys_set hx (by rw [hxv]) hwf.2⟩
  · rw [update, if_pos (by simp [hadm])] at h
    obtain rfl : st = st' := Option.some.inj h
    exact hwf

/-- Every reachable store state is well-formed. -/
theorem reachable_wf {st : List DiscoveryMessage} (h : Reachable st) :
    AllUsn st ∧ NodupKeys st := by
  induction h with
  | empty => exact ⟨fun x hx => absurd hx (List.not_mem_nil x), by simp [NodupKeys]⟩
  | step_update m _ hu ih => exact update_wf ih hu
  | step_messages dparse now _ hm ih =>
    have hs := storeMessages_sublist hm
    exact ⟨fun x hx => ih.1 x (hs.mem hx), ih.2.sublist (hs.map usnVal)⟩
  | step_clear _ _ => exact ⟨fun x hx => absurd hx (List.not_mem_nil x), by simp [NodupKeys]⟩

/-- Replacing the unique entry whose USN value is `k` by a message with
the same USN value leaves exactly that message with key `k`. -/
theorem filter_set_key {l : List DiscoveryMessage} {i : Nat}
    {old m : DiscoveryMessage} {k : Option String}
    (hold : l[i]? = some old) (hko : usnVal old = k) (hkm : usnVal m = k)
    (hn : NodupKeys l) :
    (l.set i m).filter (fun x => usnVal x == k) = [m] := by
  induction l generalizing i with
  | nil => simp at hold
  | cons a as ih =>
    unfold NodupKeys at hn
    simp only [List.map_cons, List.nodup_cons] at hn
    cases i with
    | zero =>
      obtain rfl : a = old := by simpa using hold
      simp only [List.set_cons_zero]
      rw [List.filter_cons_of_pos (by simp [hkm])]
      have hnil : as.filter (fun x => usnVal x == k) = [] := by
        refine List.filter_eq_nil_iff.mpr ?_
        intro x hx hxk
        rw [beq_iff_eq] at hxk
        exact hn.1 (List.mem_map.mpr ⟨x, hx, by rw [hxk, ← hko]⟩)
      rw [hnil]
    | succ i =>
      have hold' : as[i]? = some old := by simpa using hold
      have hmem : old ∈ as := List.getElem?_mem hold'
      simp only [List.set_cons_succ]
      rw [List.filter_cons_of_neg ?_]
      · exact ih hold' hn.2
      · simp only [beq_iff_eq]
        intro hak
        exact hn.1 (List.mem_map.mpr ⟨old, hmem, by rw [hko, ← hak]⟩)

theorem idxOfChar_eq_none {l : List Char} {c : Char}
    (h : idxOfChar l c = none) : c ∉ l := by
  induction l with
  | nil => simp
  | cons a as ih =>
    simp only [idxOfChar] at h
    by_cases hac : a = c
    · rw [if_pos hac] at h; cases h
    · rw [if_neg hac] at h
      intro hm
      rcases List.mem_cons.mp hm with rfl | hm
      · exact hac rfl
      · cases hx : idxOfChar as c with
        | none => exact ih hx hm
        | some j => rw [hx] at h; cases h

theorem idxOfChar_eq_some {l : List Char} {c : Char} {i : Nat}
    (h : idxOfChar l c = some i) :
    c ∈ l ∧ l.take i = l.takeWhile (fun a => !(a == c)) ∧
      l.drop (i + 1) = (l.dropWhile (fun a => !(a == c))).tail := by
  induction l generalizing i with
  | nil => cases h
  | cons a as ih =>
    simp only [idxOfChar] at h
    by_cases hac : a = c
    · rw [if_pos hac] at h
      obtain rfl : (0 : Nat) = i := Option.some.inj h
      subst hac
      refine ⟨List.mem_cons_self a as, ?_, ?_⟩
      · simp [List.takeWhile_cons]
      · simp [List.dropWhile_cons]
    · rw [if_neg hac] at h
      cases hx : idxOfChar as c with
      | none => rw [hx] at h; cases h
      | some j =>
        rw [hx] at h
        simp only [Option.map_some'] at h
        obtain rfl : j + 1 = i := Option.some.inj h
        obtain ⟨hm, htake, hdrop⟩ := ih hx
        refine ⟨List.mem_cons_of_mem a hm, ?_, ?_⟩
        · simp only [List.take_succ_cons, List.takeWhile_cons]
          rw [if_pos (by simp [hac])]
          rw [htake]
        · simp only [List.drop_succ_cons, List.dropWhile_cons]
          rw [if_pos (by simp [hac])]
          exact hdrop

/-- The source's first-colon header split coincides with the rule as the
spec words it. -/
theorem parseHeaderLine_eq_spec (line : String) :
    parseHeaderLine line = parseHeaderLineSpec line := by
  unfold parseHeaderLine parseHeaderLineSpec
  cases h : idxOfChar line.data ':' with
  | none =>
    rw [if_neg ?_]
    intro hc
    exact idxOfChar_eq_none h (by simpa using hc)
  | some i =>
    obtain ⟨hm, htake, hdrop⟩ := idxOfChar_eq_some h
    rw [if_pos (show line.data.contains ':' = true by simpa using hm),
      ← htake, ← hdrop]

theorem setAddJs_nodup {l : List (Option String)} {v : Option String}
    (h : l.Nodup) : (setAddJs l v).Nodup := by
  unfold setAddJs
  by_cases hv : v ∈ l
  · rw [if_pos hv]; exact h
  · rw [if_neg hv]
    rw [List.nodup_append]
    exact ⟨h, by simp, by intro x hx; simp only [List.mem_singleton]; rintro rfl; exact hv hx⟩

theorem mem_setAddJs {l : List (Option String)} {v x : Option String} :
    x ∈ setAddJs l v ↔ x ∈ l ∨ x = v := by
  unfold setAddJs
  by_cases hv : v ∈ l
  · rw [if_pos hv]
    constructor
    · exact Or.inl
    · rintro (hx | rfl)
      · exact hx
      · exact hv
  · rw [if_neg hv]
    simp

theorem addLocationsOf_nodup {m : DiscoveryMessage}
    {acc : List (Option String)} (h : acc.Nodup) :
    (addLocationsOf acc m).Nodup := by
  unfold addLocationsOf
  generalize locationHeaders m = hs
  induction hs generalizing acc with
  | nil => exact h
  | cons hd tl ih => exact ih (setAddJs_nodup h)

theorem mem_addLocationsOf {m : DiscoveryMessage}
    {acc : List (Option String)} {x : Option String} :
    x ∈ addLocationsOf acc m ↔
      x ∈ acc ∨ ∃ hd ∈ locationHeaders m, hd.value = x := by
  unfold addLocationsOf
  generalize locationHeaders m = hs
  induction hs generalizing acc with
  | nil => simp
  | cons hd tl ih =>
    simp only [List.foldl_cons]
    rw [ih]
    rw [mem_setAddJs]
    constructor
    · rintro ((hx | rfl) | ⟨y, hy, hyv⟩)
      · exact Or.inl hx
      · exact Or.inr ⟨hd, by simp, rfl⟩
      · exact Or.inr ⟨y, by simp [hy], hyv⟩
    · rintro (hx | ⟨y, hy, hyv⟩)
      · exact Or.inl (Or.inl hx)
      · rcases List.mem_cons.mp hy with rfl | hy
        · exact Or.inl (Or.inr hyv.symm)
        · exact Or.inr ⟨y, hy, hyv⟩

theorem locFold_nodup {ms : List DiscoveryMessage}
    {acc : List (Option String)} (h : acc.Nodup) :
    (ms.foldl addLocationsOf acc).Nodup := by
  induction ms generalizing acc with
  | nil => exact h
  | cons m ms ih => exact ih (addLocationsOf_nodup h)

theorem mem_locFold {ms : List DiscoveryMessage}
    {acc : List (Option String)} {x : Option String} :
    x ∈ ms.foldl addLocationsOf acc ↔
      x ∈ acc ∨ ∃ m ∈ ms, ∃ hd ∈ locationHeaders m, hd.value = x := by
  induction ms generalizing acc with
  | nil => simp
  | cons m ms ih =>
    simp only [List.foldl_cons]
    rw [ih, mem_addLocationsOf]
    constructor
    · rintro ((hx | ⟨hd, hhd, hv⟩) | ⟨y, hy, hrest⟩)
      · exact Or.inl hx
      · exact Or.inr ⟨m, by simp, hd, hhd, hv⟩
      · exact Or.inr ⟨y, by simp [hy], hrest⟩
    · rintro (hx | ⟨y, hy, hrest⟩)
      · exact Or.inl (Or.inl hx)
      · rcases List.mem_cons.mp hy with rfl | hy
        · exact Or.inl (Or.inr hrest)
        · exact Or.inr ⟨y, hy, hrest⟩

/-! ## Claim theorems -/

/-- **C1** (code bug): `update` was meant to delete the stored entry on an
`ssdp:byebye` and to ignore a byebye for an absent USN (the source's own
comment at discovery.js:340 says so), but line 337 tests the misspelled
`isSearchRespone` and both lines 337/343 compare the NTS header *object*
(not its `.value`) to the string `'ssdp:byebye'`, so the byebye branches
are unreachable.  Evaluating the embedded `update` at a byebye message for
a USN present in the store *replaces* the entry (store size 1, not 0), and
at a byebye for an absent USN *inserts* the message (not a no-op). -/
theorem update_byebye_bug :
    ((NTS0 msgByebye).map (fun h => h.value) = some (some "ssdp:byebye") ∧
     isSearchResponse msgByebye = false ∧
     usnVal msgByebye = usnVal msgAlive) ∧
    update msgByebye [msgAlive] = some [msgByebye] ∧
    update msgByebye [] = some [msgByebye] := by
  decide

/-- **C2**: for two admissible messages with the same first-USN value,
where the second has a later receipt time and is not a byebye, updating a
reachable store with the first and then the second leaves exactly one
entry for that USN — the second message. -/
theorem update_replacement {m₁ m₂ : DiscoveryMessage}
    {st st₁ st₂ : List DiscoveryMessage}
    (ha₁ : admissible m₁ = true) (ha₂ : admissible m₂ = true)
    (husn : usnVal m₁ = usnVal m₂)
    (_hts : m₁.timestamp < m₂.timestamp)
    (_hnotbye : isSearchResponse m₂ = true ∨
      (NTS0 m₂).bind (fun h => h.value) ≠ some "ssdp:byebye")
    (hreach : Reachable st)
    (h₁ : update m₁ st = some st₁) (h₂ : update m₂ st₁ = some st₂) :
    st₂.filter (fun x => usnVal x == usnVal m₂) = [m₂] := by
  have hwf := reachable_wf hreach
  have hwf₁ := update_wf hwf h₁
  rw [update, if_neg (by simp [ha₁])] at h₁
  have hex : ∃ (i : Nat) (old : DiscoveryMessage),
      st₁[i]? = some old ∧ usnVal old = usnVal m₂ := by
    cases hidx : findIndexByUsn (usnVal m₁) st with
    | none => rw [hidx] at h₁; cases h₁
    | some o =>
      rw [hidx] at h₁
      cases o with
      | none =>
        simp only [isSearchResponeTypo, ntsNeqByebyeStr_true, Bool.false_or,
          if_pos] at h₁
        obtain rfl : st ++ [m₁] = st₁ := Option.some.inj h₁
        exact ⟨st.length, m₁, List.getElem?_concat_length st m₁, husn⟩
      | some i =>
        simp only [ntsNeqByebyeStr_true, Bool.or_true, if_pos] at h₁
        obtain rfl : st.set i m₁ = st₁ := Option.some.inj h₁
        obtain ⟨x, hx, _, _⟩ := findIndexByUsn_found hidx
        have hi : i < st.length := (List.getElem?_eq_some.mp hx).1
        refine ⟨i, m₁, ?_, husn⟩
        rw [List.getElem?_set_self]
        simp [hi]
  obtain ⟨i, old, hold, holdk⟩ := hex
  rw [update, if_neg (by simp [ha₂])] at h₂
  cases hidx₂ : findIndexByUsn (usnVal m₂) st₁ with
  | none => rw [hidx₂] at h₂; cases h₂
  | some o =>
    rw [hidx₂] at h₂
    cases o with
    | none =>
      exact absurd holdk
        (findIndexByUsn_not_found hidx₂ old (List.getElem?_mem hold)).2
    | some j =>
      simp only [ntsNeqByebyeStr_true, Bool.or_true, if_pos] at h₂
      obtain rfl : st₁.set j m₂ = st₂ := Option.some.inj h₂
      obtain ⟨y, hy, _, hyk⟩ := findIndexByUsn_found hidx₂
      exact filter_set_key hy hyk rfl hwf₁.2

theorem update_replacement_witness :
    ([msgAliveLater] : List DiscoveryMessage).filter
      (fun x => usnVal x == usnVal msgAliveLater) = [msgAliveLater] :=
  @update_replacement msgAlive msgAliveLater [] [msgAlive] [msgAliveLater]
    (by decide) (by decide) (by decide) (by decide)
    (Or.inr (by decide)) Reachable.empty (by decide) (by decide)

/-- **C3** (amended): `isExpired` never reports expiry without a
CACHE-CONTROL `max-age=` directive; with one, the deadline is computed
from the DATE header's parsed value whenever a DATE header is present —
an unparseable DATE makes the comparison false (never expired), with no
fallback to the receipt timestamp — and from the receipt timestamp only
when no DATE header exists. -/
theorem isExpired_characterization (dparse : String → Option Int) (now : Int)
    (m : DiscoveryMessage) :
    (getFirstHeaderNamed m "CACHE-CONTROL" = none →
      isExpired dparse now m = some false) ∧
    (∀ cc v, getFirstHeaderNamed m "CACHE-CONTROL" = some cc →
      cc.value = some v → idxOfSub "max-age=".data v.data = none →
      isExpired dparse now m = some false) ∧
    (∀ cc v idx ma, getFirstHeaderNamed m "CACHE-CONTROL" = some cc →
      cc.value = some v → idxOfSub "max-age=".data v.data = some idx →
      jsParseInt (String.mk (v.data.drop (idx + "max-age=".length))) = some ma →
      getFirstHeaderNamed m "DATE" = none →
      isExpired dparse now m = some (decide (m.timestamp + ma * 1000 < now))) ∧
    (∀ cc v idx d dv, getFirstHeaderNamed m "CACHE-CONTROL" = some cc →
      cc.value = some v → idxOfSub "max-age=".data v.data = some idx →
      getFirstHeaderNamed m "DATE" = some d → d.value = some dv →
      dparse dv = none →
      isExpired dparse now m = some false) ∧
    (∀ cc v idx ma t d dv, getFirstHeaderNamed m "CACHE-CONTROL" = some cc →
      cc.value = some v → idxOfSub "max-age=".data v.data = some idx →
      jsParseInt (String.mk (v.data.drop (idx + "max-age=".length))) = some ma →
      getFirstHeaderNamed m "DATE" = some d → d.value = some dv →
      dparse dv = some t →
      isExpired dparse now m = some (decide (t + ma * 1000 < now))) := by
  refine ⟨?_, ?_, ?_, ?_, ?_⟩
  · intro h
    simp [isExpired, h]
  · intro cc v hcc hv hidx
    simp [isExpired, hcc, hv, hidx]
  · intro cc v idx ma hcc hv hidx hma hdate
    simp [isExpired, hcc, hv, hidx, hma, hdate]
  · intro cc v idx d dv hcc hv hidx hd hdv hdp
    cases hma : jsParseInt (String.mk (v.data.drop (idx + "max-age=".length))) with
    | none => simp [isExpired, hcc, hv, hidx, hma, hd, hdv, hdp]
    | some ma => simp [isExpired, hcc, hv, hidx, hma, hd, hdv, hdp]
  · intro cc v idx ma t d dv hcc hv hidx hma hd hdv hdp
    simp [isExpired, hcc, hv, hidx, hma, hd, hdv, hdp]

theorem isExpired_characterization_witness :
    isExpired nullDateParse 10000 msgExpired =
      some (decide (msgExpired.timestamp + 1 * 1000 < 10000)) :=
  (isExpired_characterization nullDateParse 10000 msgExpired).2.2.1
    ⟨"CACHE-CONTROL", some "max-age=1"⟩ "max-age=1" 0 1
    (by decide) (by decide) (by decide) (by decide) (by decide)

/-- **C3 counterexample**: a message received at time 0 with
`CACHE-CONTROL: max-age=1` and an unparseable `DATE`, read at a time far
past the max-age window: the claim predicts `isExpired` true (fallback to
the receipt timestamp), but the code feeds the unparseable DATE to
`new Date` and the resulting `NaN` comparison makes `isExpired` false. -/
theorem isExpired_unparseable_date_cex :
    isExpired nullDateParse 1000000 msgStaleUnparseableDate = some false ∧
    getFirstHeaderNamed msgStaleUnparseableDate "CACHE-CONTROL" =
      some ⟨"CACHE-CONTROL", some "max-age=1"⟩ ∧
    getFirstHeaderNamed msgStaleUnparseableDate "DATE" =
      some ⟨"DATE", some "not-a-date"⟩ ∧
    nullDateParse "not-a-date" = none ∧
    msgStaleUnparseableDate.timestamp = 0 ∧
    ((0 : Int) + 1 * 1000 < 1000000) := by
  refine ⟨by decide, by decide, by decide, rfl, by decide, by decide⟩

/-- **C4**: whenever the `messages` read returns, no returned entry is
expired at call time, every expired entry of the prior contents is absent
from the result, and the result — which the getter also assigns back as
the new store contents — is a sublist of the prior contents. -/
theorem messages_never_returns_expired {dparse : String → Option Int}
    {now : Int} {st res : List DiscoveryMessage}
    (h : storeMessages dparse now st = some res) :
    (∀ m ∈ res, isExpired dparse now m = some false) ∧
    (∀ m ∈ st, isExpired dparse now m = some true → m ∉ res) ∧
    res.Sublist st := by
  refine ⟨storeMessages_not_expired h, ?_, storeMessages_sublist h⟩
  intro m _ hexp hmem
  have hf := storeMessages_not_expired h m hmem
  rw [hf] at hexp
  simp at hexp

theorem messages_never_returns_expired_witness :
    (∀ m ∈ ([msgAlive] : List DiscoveryMessage),
      isExpired nullDateParse 10000 m = some false) ∧
    (∀ m ∈ ([msgExpired, msgAlive] : List DiscoveryMessage),
      isExpired nullDateParse 10000 m = some true → m ∉ [msgAlive]) ∧
    ([msgAlive] : List DiscoveryMessage).Sublist [msgExpired, msgAlive] :=
  @messages_never_returns_expired nullDateParse 10000 [msgExpired, msgAlive]
    [msgAlive] (by decide)

/-- **C5**: every store state reachable from the empty store by `update`,
the evicting `messages` read (the read also performed by `findByST` and
`getLocations`) and `clear` has at most one entry per first-USN value: no
two entries share the value of their first USN header. -/
theorem reachable_usn_unique {st : List DiscoveryMessage}
    (h : Reachable st) :
    st.Pairwise (fun a b => usnVal a ≠ usnVal b) := by
  have hn := (reachable_wf h).2
  unfold NodupKeys at hn
  exact List.pairwise_map.mp hn

theorem reachable_usn_unique_witness :
    ([msgAlive] : List DiscoveryMessage).Pairwise
      (fun a b => usnVal a ≠ usnVal b) :=
  reachable_usn_unique
    (Reachable.step_update msgAlive Reachable.empty (by decide))

/-- **C6**: parsing is total — `parseString` is a total function on
strings, never an error — and structural: the status line is the first
CRLF-separated line split on runs of whitespace, and the headers are the
remaining non-blank lines, each parsed by the spec's first-colon rule
(`parseHeaderLineSpec`: value trimmed, a colon-less line giving a header
with an absent value). -/
theorem parseString_total_structure (addr : String) (ts : Int) (msg : String) :
    parseString addr ts msg =
      { remoteAddress := addr
        timestamp := ts
        statusLine := wsSplit (((splitOnCRLF msg.data).map String.mk).headD "")
        headers := ((((splitOnCRLF msg.data).map String.mk).drop 1).filter
          (fun line => line.length > 0)).map parseHeaderLineSpec } := by
  have hh : ((((splitOnCRLF msg.data).map String.mk).drop 1).filter
        (fun line => line.length > 0)).map parseHeaderLine =
      ((((splitOnCRLF msg.data).map String.mk).drop 1).filter
        (fun line => line.length > 0)).map parseHeaderLineSpec :=
    List.map_congr_left (fun l _ => parseHeaderLine_eq_spec l)
  unfold parseString parseStatusLine
  dsimp only
  rw [hh]

/-- **C7**: an inadmissible message — no first USN header, or no first
LOCATION header, or (when not a search response) no first NTS header —
leaves the store completely unchanged, with no error for the caller. -/
theorem inadmissible_update_noop (m : DiscoveryMessage)
    (st : List DiscoveryMessage)
    (h : USN0 m = none ∨ LOCATION0 m = none ∨
      (isSearchResponse m = false ∧ NTS0 m = none)) :
    update m st = some st := by
  have hadm : admissible m = false := by
    rcases h with h | h | ⟨h1, h2⟩
    · simp [admissible, h]
    · simp [admissible, h]
    · simp [admissible, h1, h2]
  rw [update, if_pos (by simp [hadm])]

theorem inadmissible_update_noop_witness :
    update msgNoUsn [msgAlive] = some [msgAlive] :=
  inadmissible_update_noop msgNoUsn [msgAlive] (Or.inl (by decide))

/-- **C8** (code bug): `isExpired` does not return a boolean for every
parsed message.  For a message parsed from a datagram whose CACHE-CONTROL
header line has no colon, the header is present with an absent value and
the getter throws a `TypeError` (`cacheControl.value.indexOf` on
`undefined`) — `none` here — for every date parser and current time. -/
theorem isExpired_throws_on_colonless_cc :
    ∀ (dparse : String → Option Int) (now : Int),
      isExpired dparse now msgColonlessCC = none ∧
      getFirstHeaderNamed msgColonlessCC "CACHE-CONTROL" =
        some ⟨"CACHE-CONTROL", none⟩ :=
  fun _ _ => ⟨rfl, rfl⟩

/-- **C9**: `getLocations` returns a deduplicated set: it has no
duplicates and contains exactly the LOCATION header values of the
current (post-eviction) store entries, so entries sharing one LOCATION
contribute a single element. -/
theorem getLocations_dedup {dparse : String → Option Int} {now : Int}
    {svc : DiscoveryService} {locs : List (Option String)}
    {svc' : DiscoveryService}
    (h : getLocations dparse now svc = some (locs, svc')) :
    locs.Nodup ∧
    ∀ v, v ∈ locs ↔
      ∃ m ∈ svc'.messageStore, ∃ hd ∈ locationHeaders m, hd.value = v := by
  unfold getLocations at h
  cases hms : storeMessages dparse now svc.messageStore with
  | none => rw [hms] at h; cases h
  | some ms =>
    rw [hms] at h
    simp only [Option.map_some'] at h
    have h' := Option.some.inj h
    have hl : ms.foldl addLocationsOf [] = locs := congrArg Prod.fst h'
    have hs : ({ svc with messageStore := ms } : DiscoveryService) = svc' :=
      congrArg Prod.snd h'
    subst hl
    subst hs
    constructor
    · exact locFold_nodup (by simp)
    · intro v
      rw [mem_locFold]
      simp

theorem getLocations_dedup_witness :
    ([some "http://192.168.1.20/desc.xml"] : List (Option String)).Nodup ∧
    (∀ v, v ∈ ([some "http://192.168.1.20/desc.xml"] : List (Option String)) ↔
      ∃ m ∈ ([msgAlive, msgOtherUsn] : List DiscoveryMessage),
        ∃ hd ∈ locationHeaders m, hd.value = v) :=
  @getLocations_dedup nullDateParse 0 ⟨some 0, [msgAlive, msgOtherUsn]⟩
    [some "http://192.168.1.20/desc.xml"] ⟨some 0, [msgAlive, msgOtherUsn]⟩
    (by decide)

/-- **C10**: usage errors are reported synchronously: `startSearch`
before `start` throws the not-started error before any mutation — the
service (and its store) is unchanged and no datagram is sent — and a
second `start` while the socket exists throws the already-started error
and changes nothing. -/
theorem usage_errors_synchronous :
    (∀ (platform release target : String) (svc : DiscoveryService),
      svc.socket = none →
      startSearch platform release svc target =
        (svc, [], some "Server not started")) ∧
    (∀ (sid sid' : Nat) (svc : DiscoveryService),
      svc.socket = some sid' →
      startService sid svc = (svc, some "Server already started")) := by
  constructor
  · intro platform release target svc h
    simp [startSearch, h]
  · intro sid sid' svc h
    simp [startService, h]

theorem usage_errors_synchronous_witness :
    startSearch "linux" "4.4" newDiscoveryService "ssdp:all" =
      (newDiscoveryService, [], some "Server not started") ∧
    startService 1 ⟨some 0, []⟩ = (⟨some 0, []⟩, some "Server already started") :=
  ⟨usage_errors_synchronous.1 "linux" "4.4" "ssdp:all" newDiscoveryService rfl,
   usage_errors_synchronous.2 1 0 ⟨some 0, []⟩ rfl⟩

end NodeUpnp
